import Mathlib

/-!
Verification of the selas-js client (src/src/index.ts).

The client is a thin wrapper around a remote-procedure backend (supabase
`rpc`) plus a pub/sub relay (Pusher).  We embed it shallowly:

* JSON values are the inductive `Json`; `JSON.stringify` is `stringify`
  and `JSON.parse` is `parseJson` (integers model the numeric payloads,
  association lists model objects, in insertion order).
* The remote backend is an oracle `Backend : String -> params -> RpcResult`;
  each client operation returns its result, the updated client state and
  the exact list of remote-procedure calls it issued.
* A thrown `Error` is an `Except.error` carrying the message.
-/

/-- JSON values (the payloads the client marshals).  Numbers are modelled
as integers, objects as association lists in insertion order. -/
inductive Json where
  | null
  | bool (b : Bool)
  | num (n : Int)
  | str (s : String)
  | arr (elems : List Json)
  | obj (mems : List (String × Json))

/-- Decimal digit character for a value below ten.  Also serves for the
low hex digits of control-character escapes. -/
def hexDigitChar : Nat → Char
  | 0 => '0' | 1 => '1' | 2 => '2' | 3 => '3' | 4 => '4' | 5 => '5' | 6 => '6'
  | 7 => '7' | 8 => '8' | 9 => '9' | 10 => 'a' | 11 => 'b' | 12 => 'c' | 13 => 'd'
  | 14 => 'e' | _ => 'f'

/-- Numeric value of a hex digit character, lowercase letters only
(the shape `JSON.stringify` emits). -/
def hexVal (c : Char) : Option Nat :=
  if '0' ≤ c ∧ c ≤ '9' then some (c.toNat - 48)
  else if 'a' ≤ c ∧ c ≤ 'f' then some (c.toNat - 87)
  else none

/-- Decimal digit test on characters. -/
def isDigitC (c : Char) : Bool :=
  '0' ≤ c && c ≤ '9'

/-- Decimal digit characters of `n`, most significant first; `fuel`
bounds the recursion and any `fuel > n` is enough. -/
def natToCharsF : Nat → Nat → List Char
  | 0, _ => []
  | fuel + 1, n =>
    if n < 10 then [hexDigitChar n]
    else natToCharsF fuel (n / 10) ++ [hexDigitChar (n % 10)]

/-- Decimal digit characters of `n`, most significant first. -/
def natToChars (n : Nat) : List Char :=
  natToCharsF (n + 1) n

/-- Decimal rendering of an integer, as `JSON.stringify` emits it. -/
def intToChars (n : Int) : List Char :=
  if n < 0 then '-' :: natToChars n.natAbs else natToChars n.natAbs

/-- Value of a big-endian list of decimal digit characters. -/
def digitsToNat (ds : List Char) : Nat :=
  ds.foldl (fun a c => 10 * a + (c.toNat - 48)) 0

/-- Escape of one character inside a JSON string literal, exactly as
`JSON.stringify` produces it: quote and backslash get two-character
escapes, the named control characters get theirs, the remaining control
characters become lowercase `u00XX` escapes, everything else is copied. -/
def escChar (c : Char) : List Char :=
  if c = '"' then ['\\', '"']
  else if c = '\\' then ['\\', '\\']
  else if c.toNat = 8 then ['\\', 'b']
  else if c.toNat = 9 then ['\\', 't']
  else if c.toNat = 10 then ['\\', 'n']
  else if c.toNat = 12 then ['\\', 'f']
  else if c.toNat = 13 then ['\\', 'r']
  else if c.toNat < 32 then
    "\\u00".toList ++ [hexDigitChar (c.toNat / 16), hexDigitChar (c.toNat % 16)]
  else [c]

/-- Body of a JSON string literal: every character escaped, concatenated. -/
def escList (l : List Char) : List Char :=
  (l.map escChar).flatten

/-- A complete JSON string literal, quotes included. -/
def escStringChars (s : String) : List Char :=
  '"' :: escList s.data ++ ['"']

mutual

/-- Characters of the compact JSON serialization of a value, exactly the
output shape of `JSON.stringify` (no whitespace, members in order). -/
def stringifyChars : Json → List Char
  | .null => "null".toList
  | .bool b => if b then "true".toList else "false".toList
  | .num n => intToChars n
  | .str s => escStringChars s
  | .arr xs => '[' :: stringifyElems xs ++ [']']
  | .obj kvs => '\x7b' :: stringifyMems kvs ++ ['\x7d']

/-- Serialization of an array body (everything between the brackets). -/
def stringifyElems : List Json → List Char
  | [] => []
  | x :: l => stringifyChars x ++ stringifyElemsTail l

/-- Serialization of the comma-led continuation of an array body. -/
def stringifyElemsTail : List Json → List Char
  | [] => []
  | x :: l => ',' :: stringifyChars x ++ stringifyElemsTail l

/-- Serialization of an object body (everything between the braces). -/
def stringifyMems : List (String × Json) → List Char
  | [] => []
  | (k, v) :: l => escStringChars k ++ ':' :: stringifyChars v ++ stringifyMemsTail l

/-- Serialization of the comma-led continuation of an object body. -/
def stringifyMemsTail : List (String × Json) → List Char
  | [] => []
  | (k, v) :: l =>
    ',' :: escStringChars k ++ ':' :: stringifyChars v ++ stringifyMemsTail l

end

/-- The `JSON.stringify` model, as a string. -/
def stringify (j : Json) : String :=
  String.mk (stringifyChars j)

/-- Parse the inside of a JSON string literal (the opening quote already
consumed), accumulating decoded characters in reverse in `acc`. -/
def parseStrAux : List Char → List Char → Option (String × List Char)
  | _, [] => none
  | acc, c :: rest =>
    if c = '"' then some (String.mk acc.reverse, rest)
    else if c = '\\' then
      match rest with
      | [] => none
      | e :: rest2 =>
        if e = 'u' then
          match rest2 with
          | h1 :: h2 :: h3 :: h4 :: rest3 =>
            match hexVal h1, hexVal h2, hexVal h3, hexVal h4 with
            | some a, some b, some c2, some d =>
              parseStrAux (Char.ofNat (((a * 16 + b) * 16 + c2) * 16 + d) :: acc) rest3
            | _, _, _, _ => none
          | _ => none
        else if e = '"' then parseStrAux ('"' :: acc) rest2
        else if e = '\\' then parseStrAux ('\\' :: acc) rest2
        else if e = '/' then parseStrAux ('/' :: acc) rest2
        else if e = 'b' then parseStrAux (Char.ofNat 8 :: acc) rest2
        else if e = 't' then parseStrAux (Char.ofNat 9 :: acc) rest2
        else if e = 'n' then parseStrAux (Char.ofNat 10 :: acc) rest2
        else if e = 'f' then parseStrAux (Char.ofNat 12 :: acc) rest2
        else if e = 'r' then parseStrAux (Char.ofNat 13 :: acc) rest2
        else none
    else parseStrAux (c :: acc) rest
termination_by structural _ cs => cs

mutual

/-- Recursive-descent JSON value parser over characters; `fuel` bounds
the nesting depth.  Returns the parsed value and the unconsumed suffix. -/
def parseVal : Nat → List Char → Option (Json × List Char)
  | 0, _ => none
  | _ + 1, [] => none
  | fuel + 1, c :: cs =>
    if c = 'n' then
      match cs with
      | 'u' :: 'l' :: 'l' :: rest => some (.null, rest)
      | _ => none
    else if c = 't' then
      match cs with
      | 'r' :: 'u' :: 'e' :: rest => some (.bool true, rest)
      | _ => none
    else if c = 'f' then
      match cs with
      | 'a' :: 'l' :: 's' :: 'e' :: rest => some (.bool false, rest)
      | _ => none
    else if c = '"' then
      match parseStrAux [] cs with
      | some (s, rest) => some (.str s, rest)
      | none => none
    else if c = '[' then
      match parseElems fuel cs with
      | some (xs, rest) => some (.arr xs, rest)
      | none => none
    else if c = '\x7b' then
      match parseMems fuel cs with
      | some (kvs, rest) => some (.obj kvs, rest)
      | none => none
    else if c = '-' then
      let ds := cs.takeWhile isDigitC
      if ds.isEmpty then none
      else some (.num (-(digitsToNat ds : Int)), cs.dropWhile isDigitC)
    else if isDigitC c then
      some (.num (digitsToNat ((c :: cs).takeWhile isDigitC) : Int),
            (c :: cs).dropWhile isDigitC)
    else none

/-- Parse an array body after the opening bracket. -/
def parseElems : Nat → List Char → Option (List Json × List Char)
  | 0, _ => none
  | _ + 1, [] => none
  | fuel + 1, c :: cs =>
    if c = ']' then some ([], cs)
    else
      match parseVal fuel (c :: cs) with
      | some (j, rest) =>
        match parseElemsTail fuel rest with
        | some (js, rest2) => some (j :: js, rest2)
        | none => none
      | none => none

/-- Parse the continuation of an array body: a comma and the next element,
or the closing bracket. -/
def parseElemsTail : Nat → List Char → Option (List Json × List Char)
  | 0, _ => none
  | _ + 1, [] => none
  | fuel + 1, c :: cs =>
    if c = ']' then some ([], cs)
    else if c = ',' then
      match parseVal fuel cs with
      | some (j, rest) =>
        match parseElemsTail fuel rest with
        | some (js, rest2) => some (j :: js, rest2)
        | none => none
      | none => none
    else none

/-- Parse an object body after the opening brace. -/
def parseMems : Nat → List Char → Option (List (String × Json) × List Char)
  | 0, _ => none
  | _ + 1, [] => none
  | fuel + 1, c :: cs =>
    if c = '\x7d' then some ([], cs)
    else if c = '"' then
      match parseStrAux [] cs with
      | some (k, ':' :: rest2) =>
        match parseVal fuel rest2 with
        | some (v, rest3) =>
          match parseMemsTail fuel rest3 with
          | some (kvs, rest4) => some ((k, v) :: kvs, rest4)
          | none => none
        | none => none
      | _ => none
    else none

/-- Parse the continuation of an object body: a comma and the next member,
or the closing brace. -/
def parseMemsTail : Nat → List Char → Option (List (String × Json) × List Char)
  | 0, _ => none
  | _ + 1, [] => none
  | fuel + 1, c :: cs =>
    if c = '\x7d' then some ([], cs)
    else if c = ',' then
      match cs with
      | '"' :: cs2 =>
        match parseStrAux [] cs2 with
        | some (k, ':' :: rest2) =>
          match parseVal fuel rest2 with
          | some (v, rest3) =>
            match parseMemsTail fuel rest3 with
            | some (kvs, rest4) => some ((k, v) :: kvs, rest4)
            | none => none
          | none => none
        | _ => none
      | _ => none
    else none

end

/-- The `JSON.parse` model: succeeds exactly when the whole string is one
JSON value.  The fuel is adequate for every value the serializer emits. -/
def parseJson (s : String) : Option Json :=
  match parseVal (s.data.length + 1) s.data with
  | some (j, []) => some j
  | _ => none

/-- Sanity check: the serializer on a small object. -/
theorem stringify_sample_obj :
    stringify (.obj [("steps", .num 28), ("prompt", .str "a b")]) =
      "\x7b\"steps\":28,\"prompt\":\"a b\"\x7d" := rfl

/-- Sanity check: the parser on that serialization. -/
theorem parseJson_sample_obj :
    parseJson "\x7b\"steps\":28,\"prompt\":\"a b\"\x7d" =
      some (.obj [("steps", .num 28), ("prompt", .str "a b")]) := rfl

/-- Sanity check: the serializer on mixed values with an escape. -/
theorem stringify_sample_arr :
    stringify (.arr [.num (-5), .null, .bool true, .str "x\ny"]) =
      "[-5,null,true,\"x\\ny\"]" := rfl

/-- Sanity check: the concrete round trip of that array. -/
theorem parseJson_sample_arr :
    parseJson (stringify (.arr [.num (-5), .null, .bool true, .str "x\ny"])) =
      some (.arr [.num (-5), .null, .bool true, .str "x\ny"]) := rfl

/-! ## The client model (src/src/index.ts)

State-mutating methods take the current `SelasClient` and return the new
one; every operation also reports the exact remote-procedure calls it
issued, so "zero backend calls" is a statement about that list. -/

/-- Association-list lookup, modelling JS property access on an object
(keys are unique in every object the client builds). -/
def jsGetKv : List (String × Json) → String → Option Json
  | [], _ => none
  | (k', v) :: rest, k => if k' = k then some v else jsGetKv rest k

/-- Property access on a JSON value: `undefined` (here `none`) on
anything but an object with that key. -/
def jsGet : Json → String → Option Json
  | .obj kvs, k => jsGetKv kvs k
  | _, _ => none

/-- JS object-literal assignment: replace the value of an existing key in
place, or append the key at the end, as `\x7b...o, k: v\x7d` does. -/
def objSet : List (String × Json) → String → Json → List (String × Json)
  | [], k, v => [(k, v)]
  | (k', v') :: rest, k, v =>
    if k' = k then (k', v) :: rest else (k', v') :: objSet rest k v

/-- JS truthiness of a JSON value (`if (data)`): `null`, `false`, `0` and
the empty string are falsy, arrays and objects are always truthy. -/
def Json.truthy : Json → Bool
  | .null => false
  | .bool b => b
  | .num n => n != 0
  | .str s => s != ""
  | .arr _ => true
  | .obj _ => true

/-- Truthiness of a possibly absent value (`undefined` is falsy). -/
def optTruthy : Option Json → Bool
  | none => false
  | some j => j.truthy

/-- WorkerFilter is a filter to select workers; every field optional. -/
structure WorkerFilter where
  id : Option String := none
  name : Option String := none
  branch : Option String := none
  is_dirty : Option Bool := none
  cluster : Option Int := none

/-- The worker filter as the JSON object the backend receives, fields in
declaration order, absent fields omitted. -/
def workerFilterJson (f : WorkerFilter) : Json :=
  .obj ((match f.id with | some s => [("id", Json.str s)] | none => [])
    ++ (match f.name with | some s => [("name", Json.str s)] | none => [])
    ++ (match f.branch with | some s => [("branch", Json.str s)] | none => [])
    ++ (match f.is_dirty with | some b => [("is_dirty", Json.bool b)] | none => [])
    ++ (match f.cluster with | some n => [("cluster", Json.num n)] | none => []))

/-- SelasClient state: the four credentials, the worker filter and the
in-memory service catalog (`services: any[]`, so a JSON value). -/
structure SelasClient where
  app_id : String
  key : String
  app_user_id : String
  app_user_token : String
  worker_filter : WorkerFilter
  services : Json

/-- The `SelasClient` constructor: stores the credentials, defaults the
worker filter to branch "prod" when none is supplied, starts with an
empty catalog. -/
def mkSelasClient (app_id key app_user_id app_user_token : String)
    (worker_filter : Option WorkerFilter) : SelasClient :=
  { app_id, key, app_user_id, app_user_token,
    worker_filter := worker_filter.getD { branch := some "prod" },
    services := .arr [] }

/-- Result pair of a remote-procedure call, `data` and `error` both
possibly absent. -/
structure RpcResult where
  data : Option Json
  error : Option Json

/-- The remote-procedure gateway, as a deterministic oracle from the
procedure name and the sent parameter object to its result. -/
def Backend : Type :=
  String → List (String × Json) → RpcResult

/-- One remote-procedure call as actually issued over the wire. -/
structure RpcCall where
  fn : String
  params : List (String × Json)

/-- Outcome of one client operation: its return value, the client state
afterwards, and every remote-procedure call it performed, in order. -/
structure OpResult (α : Type) where
  ret : α
  client : SelasClient
  calls : List RpcCall

/-- The parameter object `rpc` actually sends: the caller's parameters
with the four credential fields assigned on top, in source order. -/
def paramsWithToken (c : SelasClient) (params : List (String × Json)) :
    List (String × Json) :=
  objSet (objSet (objSet (objSet params
    "p_app_id" (.str c.app_id))
    "p_key" (.str c.key))
    "p_app_user_id" (.str c.app_user_id))
    "p_app_user_token" (.str c.app_user_token)

/-- The private `rpc` wrapper: merges the credentials into the parameters
and performs exactly one backend call. -/
def rpc (c : SelasClient) (backend : Backend) (fn : String)
    (params : List (String × Json)) : OpResult RpcResult :=
  let p := paramsWithToken c params
  ⟨backend fn p, c, [⟨fn, p⟩]⟩

/-- `getServiceList`: one call to "app_user_get_services"; on truthy data
the catalog is replaced wholesale by the returned value. -/
def getServiceList (c : SelasClient) (backend : Backend) : OpResult RpcResult :=
  let r := rpc c backend "app_user_get_services" []
  let c' := if optTruthy r.ret.data then
      { r.client with services := (r.ret.data).getD .null }
    else r.client
  ⟨r.ret, c', r.calls⟩

/-- `echo`: one call to "app_user_echo" carrying the message. -/
def echo (c : SelasClient) (backend : Backend) (message : String) :
    OpResult RpcResult :=
  rpc c backend "app_user_echo" [("message_app_user", .str message)]

/-- `getAppUserCredits`: one call to "app_user_get_credits". -/
def getAppUserCredits (c : SelasClient) (backend : Backend) : OpResult RpcResult :=
  rpc c backend "app_user_get_credits" []

/-- `getAppUserJobHistory`: one call to "app_user_get_job_history_detail"
with the limit and offset. -/
def getAppUserJobHistory (c : SelasClient) (backend : Backend)
    (limit offset : Int) : OpResult RpcResult :=
  rpc c backend "app_user_get_job_history_detail"
    [("p_limit", .num limit), ("p_offset", .num offset)]

/-- The strict-equality name test `service.name === args.service_name`:
true exactly when the entry's `name` property is that string. -/
def nameMatches (entry : Json) (service_name : String) : Bool :=
  match jsGet entry "name" with
  | some (.str v) => v = service_name
  | _ => false

/-- `this.services.find(service => service.name === args.service_name)`:
first catalog entry whose name matches, none on a non-array catalog. -/
def findService (services : Json) (service_name : String) : Option Json :=
  match services with
  | .arr xs => xs.find? (fun s => nameMatches s service_name)
  | _ => none

/-- The operation-specific parameters of the job-creation call: resolved
service id, `JSON.stringify`-serialized configuration, worker filter. -/
def postJobParams (c : SelasClient) (service : Json) (job_config : Json) :
    List (String × Json) :=
  [("p_service_id", (jsGet service "id").getD .null),
   ("p_job_config", .str (stringify job_config)),
   ("p_worker_filter", workerFilterJson c.worker_filter)]

/-- `postJob`: look the service name up in the catalog; on a miss throw
`Error("Invalid model name")` having made no backend call; on a hit make
exactly one "app_owner_post_job_admin" call and return its result pair. -/
def postJob (c : SelasClient) (backend : Backend) (service_name : String)
    (job_config : Json) : OpResult (Except String RpcResult) :=
  match findService c.services service_name with
  | none => ⟨.error "Invalid model name", c, []⟩
  | some service =>
    let r := rpc c backend "app_owner_post_job_admin"
      (postJobParams c service job_config)
    ⟨.ok r.ret, r.client, r.calls⟩

/-- `runStableDiffusion`: submit the configuration under the model name;
a thrown lookup failure propagates, a backend error is returned with null
data, success is returned with null error. -/
def runStableDiffusion (c : SelasClient) (backend : Backend)
    (args : Json) (model_name : String) :
    OpResult (Except String (Option Json × Option Json)) :=
  let r := postJob c backend model_name args
  match r.ret with
  | .error e => ⟨.error e, r.client, r.calls⟩
  | .ok response =>
    if optTruthy response.error then
      ⟨.ok (none, response.error), r.client, r.calls⟩
    else
      ⟨.ok (response.data, none), r.client, r.calls⟩

/-- A pub/sub relay connection (`new Pusher(key, autoptions)`). -/
structure PusherConn where
  appKey : String
  cluster : String

/-- One channel subscription with one bound event callback. -/
structure Subscription (α : Type) where
  conn : PusherConn
  channel : String
  event : String
  callback : Json → α

/-- `subscribeToJob`: open a fresh relay connection with the fixed key
and cluster, subscribe to the job's channel and bind the callback to the
"result" event.  The returned list holds every subscription made. -/
def subscribeToJob {α : Type} (c : SelasClient) (job_id : String)
    (callback : Json → α) : SelasClient × List (Subscription α) :=
  (c, [{ conn := ⟨"n", "eu"⟩, channel := "job-" ++ job_id,
         event := "result", callback }])

/-- Modelled from the spec: the Push Notification Relay (Pusher, not part
of this repository) invokes a bound callback exactly when an event with
the bound event name is published on the subscribed channel. -/
def deliver {α : Type} (s : Subscription α) (channel event : String)
    (payload : Json) : Option α :=
  if s.channel = channel ∧ s.event = event then some (s.callback payload)
  else none

/-- `createSelasClient`: build the client from the credentials and fetch
the catalog once before handing it out. -/
def createSelasClient (backend : Backend)
    (app_id key app_user_id app_user_token : String)
    (worker_filter : Option WorkerFilter) : OpResult RpcResult :=
  getServiceList
    (mkSelasClient app_id key app_user_id app_user_token worker_filter) backend

/-! ## Lookup and credential-merge lemmas -/

/-- Looking a key up after a JS assignment: the assigned key reads the
new value, every other key is untouched. -/
theorem jsGetKv_objSet (o : List (String × Json)) (k : String) (v : Json)
    (k' : String) :
    jsGetKv (objSet o k v) k' = if k = k' then some v else jsGetKv o k' := by
  induction o with
  | nil =>
    by_cases h : k = k' <;> simp [objSet, jsGetKv, h]
  | cons hd tl ih =>
    obtain ⟨k0, v0⟩ := hd
    by_cases h0 : k0 = k
    · subst h0
      simp only [objSet, if_pos rfl]
      by_cases h : k0 = k' <;> simp [jsGetKv, h]
    · simp only [objSet, if_neg h0]
      by_cases h : k0 = k'
      · subst h
        simp [jsGetKv, Ne.symm h0]
      · simp [jsGetKv, h, ih]

/-- The four credential keys. -/
def credKeys : List String :=
  ["p_app_id", "p_key", "p_app_user_id", "p_app_user_token"]

/-- Characterization of the sent parameter object: the four credential
keys read the client's stored credentials, every other key reads exactly
the caller's parameters. -/
theorem jsGetKv_paramsWithToken (c : SelasClient)
    (params : List (String × Json)) (k : String) :
    jsGetKv (paramsWithToken c params) k =
      if k = "p_app_id" then some (.str c.app_id)
      else if k = "p_key" then some (.str c.key)
      else if k = "p_app_user_id" then some (.str c.app_user_id)
      else if k = "p_app_user_token" then some (.str c.app_user_token)
      else jsGetKv params k := by
  unfold paramsWithToken
  rw [jsGetKv_objSet, jsGetKv_objSet, jsGetKv_objSet, jsGetKv_objSet]
  by_cases h1 : k = "p_app_id"
  · subst h1; simp
  · by_cases h2 : k = "p_key"
    · subst h2; simp
    · by_cases h3 : k = "p_app_user_id"
      · subst h3; simp
      · by_cases h4 : k = "p_app_user_token"
        · subst h4; simp
        · simp [h1, h2, h3, h4, Ne.symm h1, Ne.symm h2, Ne.symm h3, Ne.symm h4]

/-- A key is present in the sent parameters exactly when the caller sent
it or it is one of the four credential keys. -/
theorem paramsWithToken_keys (c : SelasClient)
    (params : List (String × Json)) (k : String) :
    (jsGetKv (paramsWithToken c params) k).isSome =
      ((jsGetKv params k).isSome || decide (k ∈ credKeys)) := by
  rw [jsGetKv_paramsWithToken]
  by_cases h1 : k = "p_app_id"
  · subst h1; simp [credKeys]
  · by_cases h2 : k = "p_key"
    · subst h2; simp [credKeys]
    · by_cases h3 : k = "p_app_user_id"
      · subst h3; simp [credKeys]
      · by_cases h4 : k = "p_app_user_token"
        · subst h4; simp [credKeys]
        · simp [credKeys, h1, h2, h3, h4]

/-! ## Digit and string-literal round-trip lemmas -/

theorem natToCharsF_ne_nil (fuel n : Nat) (h : n < fuel) :
    natToCharsF fuel n ≠ [] := by
  cases fuel with
  | zero => omega
  | succ f =>
    by_cases h10 : n < 10 <;> simp [natToCharsF, h10]

theorem natToCharsF_digits (fuel : Nat) :
    ∀ n, n < fuel → ∀ c ∈ natToCharsF fuel n, isDigitC c = true := by
  induction fuel with
  | zero => omega
  | succ f ih =>
    intro n hn c hc
    have aux : ∀ m, m < 10 → isDigitC (hexDigitChar m) = true := by decide
    by_cases h10 : n < 10
    · simp [natToCharsF, h10] at hc
      subst hc
      exact aux n h10
    · simp only [natToCharsF, if_neg h10, List.mem_append] at hc
      rcases hc with hc | hc
      · exact ih (n / 10) (by omega) c hc
      · simp at hc
        subst hc
        exact aux (n % 10) (by omega)

theorem digitsToNat_append_one (l : List Char) (c : Char) :
    digitsToNat (l ++ [c]) = 10 * digitsToNat l + (c.toNat - 48) := by
  simp [digitsToNat, List.foldl_append]

theorem digitsToNat_natToCharsF (fuel : Nat) :
    ∀ n, n < fuel → digitsToNat (natToCharsF fuel n) = n := by
  induction fuel with
  | zero => omega
  | succ f ih =>
    intro n hn
    by_cases h10 : n < 10
    · simp only [natToCharsF, if_pos h10]
      have : ∀ m, m < 10 → digitsToNat [hexDigitChar m] = m := by decide
      exact this n h10
    · simp only [natToCharsF, if_neg h10]
      rw [digitsToNat_append_one, ih (n / 10) (by omega)]
      have : ∀ m, m < 10 → (hexDigitChar m).toNat - 48 = m := by decide
      rw [this (n % 10) (by omega)]
      omega

/-- `takeWhile`/`dropWhile` split an append exactly at the boundary when
the left part satisfies the predicate throughout and the right part does
not start with it. -/
theorem takeWhile_dropWhile_append (p : Char → Bool) (l1 l2 : List Char)
    (h1 : ∀ c ∈ l1, p c = true) (h2 : ∀ c, l2.head? = some c → p c = false) :
    (l1 ++ l2).takeWhile p = l1 ∧ (l1 ++ l2).dropWhile p = l2 := by
  induction l1 with
  | nil =>
    cases l2 with
    | nil => exact ⟨rfl, rfl⟩
    | cons c t => simp [List.takeWhile, List.dropWhile, h2 c rfl]
  | cons c t ih =>
    have hc := h1 c (by simp)
    have iht := ih (fun x hx => h1 x (by simp [hx]))
    simp [List.takeWhile_cons, List.dropWhile_cons, hc, iht.1, iht.2]

theorem hexVal_hexDigitChar : ∀ d, d < 16 → hexVal (hexDigitChar d) = some d := by
  decide

/-- Parsing a lowercase `u0000`-style escape with two free hex digits. -/
theorem parseStrAux_uEsc (acc rest : List Char) (d1 d2 : Char) (n1 n2 : Nat)
    (e1 : hexVal d1 = some n1) (e2 : hexVal d2 = some n2) :
    parseStrAux acc ('\\' :: 'u' :: '0' :: '0' :: d1 :: d2 :: rest) =
      parseStrAux (Char.ofNat (((0 * 16 + 0) * 16 + n1) * 16 + n2) :: acc) rest := by
  rw [parseStrAux.eq_def]
  simp only [show hexVal '0' = some 0 from rfl, e1, e2]
  rfl

/-- Parsing one serialized character escape prepends exactly that
character to the accumulator. -/
theorem parseStrAux_escChar (c : Char) (acc rest : List Char) :
    parseStrAux acc (escChar c ++ rest) = parseStrAux (c :: acc) rest := by
  by_cases h1 : c = '"'
  · subst h1
    show parseStrAux acc ('\\' :: '"' :: rest) = _
    rw [parseStrAux.eq_def]
    rfl
  by_cases h2 : c = '\\'
  · subst h2
    show parseStrAux acc ('\\' :: '\\' :: rest) = _
    rw [parseStrAux.eq_def]
    rfl
  by_cases h3 : c.toNat = 8
  · have hc : Char.ofNat 8 = c := by rw [← h3, Char.ofNat_toNat]
    have he : escChar c = ['\\', 'b'] := by simp [escChar, h1, h2, h3]
    rw [he]
    have step : parseStrAux acc ('\\' :: 'b' :: rest) =
        parseStrAux (Char.ofNat 8 :: acc) rest := by
      rw [parseStrAux.eq_def]; rfl
    rw [show (['\\', 'b'] : List Char) ++ rest = '\\' :: 'b' :: rest from rfl,
      step, hc]
  by_cases h4 : c.toNat = 9
  · have hc : Char.ofNat 9 = c := by rw [← h4, Char.ofNat_toNat]
    have he : escChar c = ['\\', 't'] := by simp [escChar, h1, h2, h3, h4]
    rw [he]
    have step : parseStrAux acc ('\\' :: 't' :: rest) =
        parseStrAux (Char.ofNat 9 :: acc) rest := by
      rw [parseStrAux.eq_def]; rfl
    rw [show (['\\', 't'] : List Char) ++ rest = '\\' :: 't' :: rest from rfl,
      step, hc]
  by_cases h5 : c.toNat = 10
  · have hc : Char.ofNat 10 = c := by rw [← h5, Char.ofNat_toNat]
    have he : escChar c = ['\\', 'n'] := by simp [escChar, h1, h2, h3, h4, h5]
    rw [he]
    have step : parseStrAux acc ('\\' :: 'n' :: rest) =
        parseStrAux (Char.ofNat 10 :: acc) rest := by
      rw [parseStrAux.eq_def]; rfl
    rw [show (['\\', 'n'] : List Char) ++ rest = '\\' :: 'n' :: rest from rfl,
      step, hc]
  by_cases h6 : c.toNat = 12
  · have hc : Char.ofNat 12 = c := by rw [← h6, Char.ofNat_toNat]
    have he : escChar c = ['\\', 'f'] := by simp [escChar, h1, h2, h3, h4, h5, h6]
    rw [he]
    have step : parseStrAux acc ('\\' :: 'f' :: rest) =
        parseStrAux (Char.ofNat 12 :: acc) rest := by
      rw [parseStrAux.eq_def]; rfl
    rw [show (['\\', 'f'] : List Char) ++ rest = '\\' :: 'f' :: rest from rfl,
      step, hc]
  by_cases h7 : c.toNat = 13
  · have hc : Char.ofNat 13 = c := by rw [← h7, Char.ofNat_toNat]
    have he : escChar c = ['\\', 'r'] := by
      simp [escChar, h1, h2, h3, h4, h5, h6, h7]
    rw [he]
    have step : parseStrAux acc ('\\' :: 'r' :: rest) =
        parseStrAux (Char.ofNat 13 :: acc) rest := by
      rw [parseStrAux.eq_def]; rfl
    rw [show (['\\', 'r'] : List Char) ++ rest = '\\' :: 'r' :: rest from rfl,
      step, hc]
  by_cases h8 : c.toNat < 32
  · have e1 : hexVal (hexDigitChar (c.toNat / 16)) = some (c.toNat / 16) :=
      hexVal_hexDigitChar _ (by omega)
    have e2 : hexVal (hexDigitChar (c.toNat % 16)) = some (c.toNat % 16) :=
      hexVal_hexDigitChar _ (by omega)
    have hc : Char.ofNat (((0 * 16 + 0) * 16 + c.toNat / 16) * 16 + c.toNat % 16) = c := by
      rw [show ((0 * 16 + 0) * 16 + c.toNat / 16) * 16 + c.toNat % 16 = c.toNat by omega,
        Char.ofNat_toNat]
    have he : escChar c =
        "\\u00".toList ++ [hexDigitChar (c.toNat / 16), hexDigitChar (c.toNat % 16)] := by
      simp [escChar, h1, h2, h3, h4, h5, h6, h7, h8]
    rw [he]
    rw [show ("\\u00".toList ++ [hexDigitChar (c.toNat / 16),
          hexDigitChar (c.toNat % 16)] : List Char) ++ rest =
        '\\' :: 'u' :: '0' :: '0' :: hexDigitChar (c.toNat / 16) ::
          hexDigitChar (c.toNat % 16) :: rest from rfl]
    rw [parseStrAux_uEsc acc rest _ _ _ _ e1 e2, hc]
  · have he : escChar c = [c] := by simp [escChar, h1, h2, h3, h4, h5, h6, h7, h8]
    rw [he, show ([c] : List Char) ++ rest = c :: rest from rfl]
    rw [parseStrAux.eq_def]
    simp only [if_neg h1, if_neg h2]

/-- Parsing a serialized string body up to its closing quote recovers the
original characters, appended after the accumulator. -/
theorem parseStrAux_escList (l : List Char) :
    ∀ acc rest, parseStrAux acc (escList l ++ '"' :: rest) =
      some (String.mk (acc.reverse ++ l), rest) := by
  induction l with
  | nil =>
    intro acc rest
    have step : parseStrAux acc ('"' :: rest) = some (String.mk acc.reverse, rest) := by
      rw [parseStrAux.eq_def]; rfl
    simp [escList, step]
  | cons c t ih =>
    intro acc rest
    have : escList (c :: t) = escChar c ++ escList t := by
      simp [escList]
    rw [this, List.append_assoc, parseStrAux_escChar, ih]
    simp

/-! ## Per-head reduction lemmas for the parser -/

theorem natToChars_ne_nil (n : Nat) : natToChars n ≠ [] :=
  natToCharsF_ne_nil _ _ (by omega)

theorem natToChars_digits (n : Nat) : ∀ c ∈ natToChars n, isDigitC c = true :=
  natToCharsF_digits _ _ (by omega)

theorem digitsToNat_natToChars (n : Nat) : digitsToNat (natToChars n) = n :=
  digitsToNat_natToCharsF _ _ (by omega)

/-- A digit head is none of the value-opening characters the parser
dispatches on first. -/
theorem isDigitC_ne (c : Char) (h : isDigitC c = true) :
    c ≠ 'n' ∧ c ≠ 't' ∧ c ≠ 'f' ∧ c ≠ '"' ∧ c ≠ '[' ∧ c ≠ '\x7b' ∧ c ≠ '-' := by
  refine ⟨?_, ?_, ?_, ?_, ?_, ?_, ?_⟩ <;> intro e <;> subst e <;>
    exact absurd h (by decide)

theorem parseVal_nullTok (f : Nat) (cs : List Char) :
    parseVal (f + 1) ('n' :: 'u' :: 'l' :: 'l' :: cs) = some (.null, cs) := by
  rw [parseVal.eq_def]; rfl

theorem parseVal_trueTok (f : Nat) (cs : List Char) :
    parseVal (f + 1) ('t' :: 'r' :: 'u' :: 'e' :: cs) = some (.bool true, cs) := by
  rw [parseVal.eq_def]; rfl

theorem parseVal_falseTok (f : Nat) (cs : List Char) :
    parseVal (f + 1) ('f' :: 'a' :: 'l' :: 's' :: 'e' :: cs) =
      some (.bool false, cs) := by
  rw [parseVal.eq_def]; rfl

theorem parseVal_quote (f : Nat) (cs : List Char) :
    parseVal (f + 1) ('"' :: cs) =
      (match parseStrAux [] cs with
       | some (s, rest) => some (.str s, rest)
       | none => none) := by
  rw [parseVal.eq_def]; rfl

theorem parseVal_openBracket (f : Nat) (cs : List Char) :
    parseVal (f + 1) ('[' :: cs) =
      (match parseElems f cs with
       | some (xs, rest) => some (.arr xs, rest)
       | none => none) := by
  rw [parseVal.eq_def]; rfl

theorem parseVal_openBrace (f : Nat) (cs : List Char) :
    parseVal (f + 1) ('\x7b' :: cs) =
      (match parseMems f cs with
       | some (kvs, rest) => some (.obj kvs, rest)
       | none => none) := by
  rw [parseVal.eq_def]; rfl

theorem parseVal_dash (f : Nat) (cs : List Char) :
    parseVal (f + 1) ('-' :: cs) =
      (if (cs.takeWhile isDigitC).isEmpty then none
       else some (.num (-(digitsToNat (cs.takeWhile isDigitC) : Int)),
         cs.dropWhile isDigitC)) := by
  rw [parseVal.eq_def]; rfl

theorem parseVal_digit (f : Nat) (c : Char) (cs : List Char)
    (h : isDigitC c = true) :
    parseVal (f + 1) (c :: cs) =
      some (.num (digitsToNat ((c :: cs).takeWhile isDigitC) : Int),
        (c :: cs).dropWhile isDigitC) := by
  obtain ⟨e1, e2, e3, e4, e5, e6, e7⟩ := isDigitC_ne c h
  rw [parseVal.eq_def]
  simp only [if_neg e1, if_neg e2, if_neg e3, if_neg e4, if_neg e5, if_neg e6,
    if_neg e7, if_pos h]

theorem parseElems_close (f : Nat) (cs : List Char) :
    parseElems (f + 1) (']' :: cs) = some ([], cs) := by
  rw [parseElems.eq_def]; rfl

theorem parseElems_step (f : Nat) (c : Char) (cs : List Char) (h : c ≠ ']') :
    parseElems (f + 1) (c :: cs) =
      (match parseVal f (c :: cs) with
       | some (j, rest) =>
         match parseElemsTail f rest with
         | some (js, rest2) => some (j :: js, rest2)
         | none => none
       | none => none) := by
  rw [parseElems.eq_def]
  simp only [if_neg h]

theorem parseElemsTail_close (f : Nat) (cs : List Char) :
    parseElemsTail (f + 1) (']' :: cs) = some ([], cs) := by
  rw [parseElemsTail.eq_def]; rfl

theorem parseElemsTail_comma (f : Nat) (cs : List Char) :
    parseElemsTail (f + 1) (',' :: cs) =
      (match parseVal f cs with
       | some (j, rest) =>
         match parseElemsTail f rest with
         | some (js, rest2) => some (j :: js, rest2)
         | none => none
       | none => none) := by
  rw [parseElemsTail.eq_def]; rfl

theorem parseMems_close (f : Nat) (cs : List Char) :
    parseMems (f + 1) ('\x7d' :: cs) = some ([], cs) := by
  rw [parseMems.eq_def]; rfl

theorem parseMems_quote (f : Nat) (cs : List Char) :
    parseMems (f + 1) ('"' :: cs) =
      (match parseStrAux [] cs with
       | some (k, ':' :: rest2) =>
         match parseVal f rest2 with
         | some (v, rest3) =>
           match parseMemsTail f rest3 with
           | some (kvs, rest4) => some ((k, v) :: kvs, rest4)
           | none => none
         | none => none
       | _ => none) := by
  rw [parseMems.eq_def]; rfl

theorem parseMemsTail_close (f : Nat) (cs : List Char) :
    parseMemsTail (f + 1) ('\x7d' :: cs) = some ([], cs) := by
  rw [parseMemsTail.eq_def]; rfl

theorem parseMemsTail_comma (f : Nat) (cs : List Char) :
    parseMemsTail (f + 1) (',' :: '"' :: cs) =
      (match parseStrAux [] cs with
       | some (k, ':' :: rest2) =>
         match parseVal f rest2 with
         | some (v, rest3) =>
           match parseMemsTail f rest3 with
           | some (kvs, rest4) => some ((k, v) :: kvs, rest4)
           | none => none
         | none => none
       | _ => none) := by
  rw [parseMemsTail.eq_def]; rfl

/-! ## Round trip of the serializer through the parser -/

mutual

/-- Fuel adequate for parsing the serialization of a value. -/
def jsize : Json → Nat
  | .null => 1
  | .bool _ => 1
  | .num _ => 1
  | .str _ => 1
  | .arr xs => 1 + tsize xs
  | .obj kvs => 1 + mtsize kvs

/-- Fuel adequate for parsing a serialized array body. -/
def tsize : List Json → Nat
  | [] => 1
  | x :: l => 1 + max (jsize x) (tsize l)

/-- Fuel adequate for parsing a serialized object body. -/
def mtsize : List (String × Json) → Nat
  | [] => 1
  | (_, v) :: l => 1 + max (jsize v) (mtsize l)

end

/-- The suffix does not begin with a digit (so number parsing stops at
the boundary). -/
def headNotDigit : List Char → Prop
  | [] => True
  | c :: _ => isDigitC c = false

/-- The condition the round trip needs on the unparsed suffix: only a
serialized number constrains it. -/
def numDelim : Json → List Char → Prop
  | .num _, rest => headNotDigit rest
  | _, _ => True

theorem numDelim_of_headNotDigit (j : Json) (rest : List Char)
    (h : headNotDigit rest) : numDelim j rest := by
  cases j <;> first | exact h | trivial

theorem headNotDigit_head (rest : List Char) (h : headNotDigit rest) :
    ∀ c, rest.head? = some c → isDigitC c = false := by
  cases rest with
  | nil => intro c hc; simp at hc
  | cons a t =>
    intro c hc
    simp at hc
    subst hc
    exact h

/-- Every serialized value is nonempty and starts with a character that
closes neither an array nor an object. -/
theorem stringifyChars_head (j : Json) :
    ∃ c cs, stringifyChars j = c :: cs ∧ c ≠ ']' ∧ c ≠ '\x7d' := by
  cases j with
  | null =>
    exact ⟨'n', "ull".toList, rfl, by decide, by decide⟩
  | bool b =>
    cases b with
    | true => exact ⟨'t', "rue".toList, rfl, by decide, by decide⟩
    | false => exact ⟨'f', "alse".toList, rfl, by decide, by decide⟩
  | num n =>
    by_cases hneg : n < 0
    · refine ⟨'-', natToChars n.natAbs, ?_, by decide, by decide⟩
      simp [stringifyChars, intToChars, hneg]
    · obtain ⟨d, cs0, hnat⟩ : ∃ d cs0, natToChars n.natAbs = d :: cs0 := by
        cases h : natToChars n.natAbs with
        | nil => exact absurd h (natToChars_ne_nil _)
        | cons a b => exact ⟨a, b, rfl⟩
      have hdig : isDigitC d = true := natToChars_digits _ d (by rw [hnat]; simp)
      refine ⟨d, cs0, ?_, ?_, ?_⟩
      · simp [stringifyChars, intToChars, hneg, hnat]
      · intro e; subst e; exact absurd hdig (by decide)
      · intro e; subst e; exact absurd hdig (by decide)
  | str s =>
    exact ⟨'"', escList s.data ++ ['"'],
      by simp [stringifyChars, escStringChars], by decide, by decide⟩
  | arr xs =>
    exact ⟨'[', stringifyElems xs ++ [']'], by simp [stringifyChars], by decide,
      by decide⟩
  | obj kvs =>
    exact ⟨'\x7b', stringifyMems kvs ++ ['\x7d'], by simp [stringifyChars],
      by decide, by decide⟩

theorem headNotDigit_elemsTail (l : List Json) (rest : List Char) :
    headNotDigit (stringifyElemsTail l ++ ']' :: rest) := by
  cases l with
  | nil =>
    simp only [stringifyElemsTail, List.nil_append]
    show isDigitC ']' = false
    decide
  | cons x t =>
    simp only [stringifyElemsTail, List.cons_append]
    show isDigitC ',' = false
    decide

theorem headNotDigit_memsTail (l : List (String × Json)) (rest : List Char) :
    headNotDigit (stringifyMemsTail l ++ '\x7d' :: rest) := by
  cases l with
  | nil =>
    simp only [stringifyMemsTail, List.nil_append]
    show isDigitC '\x7d' = false
    decide
  | cons m t =>
    obtain ⟨k, v⟩ := m
    simp only [stringifyMemsTail, List.cons_append]
    show isDigitC ',' = false
    decide

theorem strMk_data (s : String) : String.mk s.data = s := by
  cases s
  rfl

/-- Parsing a serialized integer consumes exactly its digits. -/
theorem parseVal_num (f : Nat) (n : Int) (rest : List Char)
    (hrest : headNotDigit rest) :
    parseVal (f + 1) (intToChars n ++ rest) = some (.num n, rest) := by
  have hsplit := takeWhile_dropWhile_append isDigitC (natToChars n.natAbs) rest
    (natToChars_digits _) (headNotDigit_head rest hrest)
  have hne : (natToChars n.natAbs).isEmpty = false := by
    cases h : natToChars n.natAbs with
    | nil => exact absurd h (natToChars_ne_nil _)
    | cons a b => rfl
  by_cases hneg : n < 0
  · rw [show intToChars n = '-' :: natToChars n.natAbs by simp [intToChars, hneg]]
    simp only [List.cons_append]
    rw [parseVal_dash, hsplit.1, hsplit.2, hne]
    simp only [Bool.false_eq_true, if_false]
    rw [digitsToNat_natToChars]
    have : -((n.natAbs : Int)) = n := by omega
    rw [this]
  · rw [show intToChars n = natToChars n.natAbs by simp [intToChars, hneg]]
    obtain ⟨d, cs0, hnat⟩ : ∃ d cs0, natToChars n.natAbs = d :: cs0 := by
      cases h : natToChars n.natAbs with
      | nil => exact absurd h (natToChars_ne_nil _)
      | cons a b => exact ⟨a, b, rfl⟩
    have hdig : isDigitC d = true := natToChars_digits _ d (by rw [hnat]; simp)
    rw [hnat]
    simp only [List.cons_append]
    rw [parseVal_digit f d _ hdig]
    rw [show d :: (cs0 ++ rest) = (d :: cs0) ++ rest from rfl, ← hnat,
      hsplit.1, hsplit.2, digitsToNat_natToChars]
    have : ((n.natAbs : Int)) = n := by omega
    rw [this]

theorem jsize_pos (j : Json) : 1 ≤ jsize j := by
  cases j <;> simp [jsize]

theorem tsize_pos (xs : List Json) : 1 ≤ tsize xs := by
  cases xs <;> simp [tsize]

theorem mtsize_pos (kvs : List (String × Json)) : 1 ≤ mtsize kvs := by
  cases kvs with
  | nil => simp [mtsize]
  | cons m l => obtain ⟨k, v⟩ := m; simp [mtsize]

mutual

/-- The parser consumes exactly the serialization of a value and returns
that value, for any adequate fuel and any suffix a number cannot run
into. -/
theorem parseVal_rt : ∀ (j : Json) (fuel : Nat) (rest : List Char),
    jsize j ≤ fuel → numDelim j rest →
    parseVal fuel (stringifyChars j ++ rest) = some (j, rest)
  | .null, fuel, rest, hf, _ => by
    obtain ⟨f, rfl⟩ : ∃ f, fuel = f + 1 := ⟨fuel - 1, by simp [jsize] at hf; omega⟩
    exact parseVal_nullTok f rest
  | .bool true, fuel, rest, hf, _ => by
    obtain ⟨f, rfl⟩ : ∃ f, fuel = f + 1 := ⟨fuel - 1, by simp [jsize] at hf; omega⟩
    exact parseVal_trueTok f rest
  | .bool false, fuel, rest, hf, _ => by
    obtain ⟨f, rfl⟩ : ∃ f, fuel = f + 1 := ⟨fuel - 1, by simp [jsize] at hf; omega⟩
    exact parseVal_falseTok f rest
  | .num n, fuel, rest, hf, hrest => by
    obtain ⟨f, rfl⟩ : ∃ f, fuel = f + 1 := ⟨fuel - 1, by simp [jsize] at hf; omega⟩
    simp only [stringifyChars]
    exact parseVal_num f n rest hrest
  | .str s, fuel, rest, hf, _ => by
    obtain ⟨f, rfl⟩ : ∃ f, fuel = f + 1 := ⟨fuel - 1, by simp [jsize] at hf; omega⟩
    simp only [stringifyChars, escStringChars, List.cons_append,
      List.append_assoc, List.singleton_append]
    rw [parseVal_quote, parseStrAux_escList]
    simp [strMk_data]
  | .arr xs, fuel, rest, hf, _ => by
    obtain ⟨f, rfl⟩ : ∃ f, fuel = f + 1 := ⟨fuel - 1, by simp [jsize] at hf; omega⟩
    simp only [jsize] at hf
    simp only [stringifyChars, List.cons_append, List.append_assoc,
      List.singleton_append, List.nil_append]
    rw [parseVal_openBracket]
    simp only [parseElems_rt xs f rest (by omega)]
  | .obj kvs, fuel, rest, hf, _ => by
    obtain ⟨f, rfl⟩ : ∃ f, fuel = f + 1 := ⟨fuel - 1, by simp [jsize] at hf; omega⟩
    simp only [jsize] at hf
    simp only [stringifyChars, List.cons_append, List.append_assoc,
      List.singleton_append, List.nil_append]
    rw [parseVal_openBrace]
    simp only [parseMems_rt kvs f rest (by omega)]

/-- The array-body parser consumes a serialized body up to its closing
bracket. -/
theorem parseElems_rt : ∀ (xs : List Json) (fuel : Nat) (rest : List Char),
    tsize xs ≤ fuel →
    parseElems fuel (stringifyElems xs ++ ']' :: rest) = some (xs, rest)
  | [], fuel, rest, hf => by
    obtain ⟨f, rfl⟩ : ∃ f, fuel = f + 1 := ⟨fuel - 1, by simp [tsize] at hf; omega⟩
    simp only [stringifyElems, List.nil_append]
    exact parseElems_close f rest
  | x :: l, fuel, rest, hf => by
    obtain ⟨f, rfl⟩ : ∃ f, fuel = f + 1 := ⟨fuel - 1, by simp [tsize] at hf; omega⟩
    simp only [stringifyElems, List.append_assoc]
    obtain ⟨c, cs0, hx, hne1, hne2⟩ := stringifyChars_head x
    rw [hx]
    simp only [List.cons_append]
    rw [parseElems_step f c _ hne1]
    rw [show c :: (cs0 ++ (stringifyElemsTail l ++ ']' :: rest)) =
          (c :: cs0) ++ (stringifyElemsTail l ++ ']' :: rest) from rfl, ← hx]
    simp only [tsize] at hf
    simp only [parseVal_rt x f _ (by omega)
      (numDelim_of_headNotDigit x _ (headNotDigit_elemsTail l rest)),
      parseElemsTail_rt l f rest (by omega)]

/-- The array-continuation parser consumes a serialized continuation up
to its closing bracket. -/
theorem parseElemsTail_rt : ∀ (xs : List Json) (fuel : Nat) (rest : List Char),
    tsize xs ≤ fuel →
    parseElemsTail fuel (stringifyElemsTail xs ++ ']' :: rest) = some (xs, rest)
  | [], fuel, rest, hf => by
    obtain ⟨f, rfl⟩ : ∃ f, fuel = f + 1 := ⟨fuel - 1, by simp [tsize] at hf; omega⟩
    simp only [stringifyElemsTail, List.nil_append]
    exact parseElemsTail_close f rest
  | x :: l, fuel, rest, hf => by
    obtain ⟨f, rfl⟩ : ∃ f, fuel = f + 1 := ⟨fuel - 1, by simp [tsize] at hf; omega⟩
    simp only [stringifyElemsTail, List.cons_append, List.append_assoc]
    rw [parseElemsTail_comma]
    simp only [tsize] at hf
    simp only [parseVal_rt x f _ (by omega)
      (numDelim_of_headNotDigit x _ (headNotDigit_elemsTail l rest)),
      parseElemsTail_rt l f rest (by omega)]

/-- The object-body parser consumes a serialized body up to its closing
brace. -/
theorem parseMems_rt : ∀ (kvs : List (String × Json)) (fuel : Nat)
    (rest : List Char), mtsize kvs ≤ fuel →
    parseMems fuel (stringifyMems kvs ++ '\x7d' :: rest) = some (kvs, rest)
  | [], fuel, rest, hf => by
    obtain ⟨f, rfl⟩ : ∃ f, fuel = f + 1 := ⟨fuel - 1, by simp [mtsize] at hf; omega⟩
    simp only [stringifyMems, List.nil_append]
    exact parseMems_close f rest
  | (k, v) :: l, fuel, rest, hf => by
    obtain ⟨f, rfl⟩ : ∃ f, fuel = f + 1 := ⟨fuel - 1, by simp [mtsize] at hf; omega⟩
    simp only [stringifyMems, escStringChars, List.cons_append,
      List.append_assoc, List.singleton_append]
    rw [parseMems_quote f _, parseStrAux_escList]
    simp only [List.reverse_nil, List.nil_append, strMk_data]
    simp only [mtsize] at hf
    simp only [parseVal_rt v f _ (by omega)
      (numDelim_of_headNotDigit v _ (headNotDigit_memsTail l rest)),
      parseMemsTail_rt l f rest (by omega)]

/-- The object-continuation parser consumes a serialized continuation up
to its closing brace. -/
theorem parseMemsTail_rt : ∀ (kvs : List (String × Json)) (fuel : Nat)
    (rest : List Char), mtsize kvs ≤ fuel →
    parseMemsTail fuel (stringifyMemsTail kvs ++ '\x7d' :: rest) =
      some (kvs, rest)
  | [], fuel, rest, hf => by
    obtain ⟨f, rfl⟩ : ∃ f, fuel = f + 1 := ⟨fuel - 1, by simp [mtsize] at hf; omega⟩
    simp only [stringifyMemsTail, List.nil_append]
    exact parseMemsTail_close f rest
  | (k, v) :: l, fuel, rest, hf => by
    obtain ⟨f, rfl⟩ : ∃ f, fuel = f + 1 := ⟨fuel - 1, by simp [mtsize] at hf; omega⟩
    simp only [stringifyMemsTail, escStringChars, List.cons_append,
      List.append_assoc, List.singleton_append]
    rw [parseMemsTail_comma f _, parseStrAux_escList]
    simp only [List.reverse_nil, List.nil_append, strMk_data]
    simp only [mtsize] at hf
    simp only [parseVal_rt v f _ (by omega)
      (numDelim_of_headNotDigit v _ (headNotDigit_memsTail l rest)),
      parseMemsTail_rt l f rest (by omega)]

end

mutual

/-- The serializer's output length (plus one) is adequate parsing fuel. -/
theorem jsize_le : ∀ j : Json, jsize j ≤ (stringifyChars j).length + 1
  | .null => by simp only [jsize]; omega
  | .bool true => by simp only [jsize]; omega
  | .bool false => by simp only [jsize]; omega
  | .num n => by simp only [jsize]; omega
  | .str s => by simp only [jsize]; omega
  | .arr xs => by
    have h := tsizeElems_le xs
    simp only [jsize, stringifyChars, List.length_cons, List.length_append]
    omega
  | .obj kvs => by
    have h := msizeMems_le kvs
    simp only [jsize, stringifyChars, List.length_cons, List.length_append]
    omega

/-- Adequate fuel for a serialized array body. -/
theorem tsizeElems_le : ∀ xs : List Json,
    tsize xs ≤ (stringifyElems xs).length + 2
  | [] => by simp [tsize, stringifyElems]
  | x :: l => by
    have h1 := jsize_le x
    have h2 := tsizeTail_le l
    have h3 : 1 ≤ (stringifyChars x).length := by
      obtain ⟨c, cs0, hx, _, _⟩ := stringifyChars_head x
      rw [hx]
      simp
    simp only [tsize, stringifyElems, List.length_append]
    omega

/-- Adequate fuel for a serialized array continuation. -/
theorem tsizeTail_le : ∀ xs : List Json,
    tsize xs ≤ (stringifyElemsTail xs).length + 2
  | [] => by simp [tsize, stringifyElemsTail]
  | x :: l => by
    have h1 := jsize_le x
    have h2 := tsizeTail_le l
    simp only [tsize, stringifyElemsTail, List.length_cons, List.length_append]
    omega

/-- Adequate fuel for a serialized object body. -/
theorem msizeMems_le : ∀ kvs : List (String × Json),
    mtsize kvs ≤ (stringifyMems kvs).length + 2
  | [] => by simp [mtsize, stringifyMems]
  | (k, v) :: l => by
    have h1 := jsize_le v
    have h2 := mtsizeTail_le l
    simp only [mtsize, stringifyMems, escStringChars, List.length_cons,
      List.length_append]
    omega

/-- Adequate fuel for a serialized object continuation. -/
theorem mtsizeTail_le : ∀ kvs : List (String × Json),
    mtsize kvs ≤ (stringifyMemsTail kvs).length + 2
  | [] => by simp [mtsize, stringifyMemsTail]
  | (k, v) :: l => by
    have h1 := jsize_le v
    have h2 := mtsizeTail_le l
    simp only [mtsize, stringifyMemsTail, escStringChars, List.length_cons,
      List.length_append]
    omega

end

/-- The round trip of `JSON.stringify` through `JSON.parse`: deserializing
the serialized value yields the value back. -/
theorem parse_stringify (j : Json) : parseJson (stringify j) = some j := by
  unfold parseJson stringify
  rw [show (String.mk (stringifyChars j)).data = stringifyChars j from rfl]
  have h := parseVal_rt j ((stringifyChars j).length + 1) []
    (by have := jsize_le j; omega)
    (numDelim_of_headNotDigit j [] trivial)
  rw [List.append_nil] at h
  rw [h]

/-! ## Concrete fixtures for witnesses -/

/-- A backend that answers every call with no data and no error. -/
def backend0 : Backend := fun _ _ => ⟨none, none⟩

/-- The catalog entry of the spec's end-to-end example. -/
def entry0 : Json := .obj [("id", .str "svc-1"), ("name", .str "sdxl")]

/-- A backend with one service and a successful job-creation call. -/
def backend1 : Backend := fun fn _ =>
  if fn = "app_owner_post_job_admin" then ⟨some (.str "job-42"), none⟩
  else if fn = "app_user_get_services" then ⟨some (.arr [entry0]), none⟩
  else ⟨none, none⟩

/-- The error payload of the spec's quota example. -/
def err0 : Json := .obj [("message", .str "quota exceeded")]

/-- A backend whose job-creation call fails with `err0`. -/
def backendErr : Backend := fun fn _ =>
  if fn = "app_owner_post_job_admin" then ⟨none, some err0⟩ else ⟨none, none⟩

/-- A freshly constructed client (empty catalog, default filter). -/
def client0 : SelasClient := mkSelasClient "app" "key" "user" "token" none

/-- The client after fetching the one-service catalog. -/
def client1 : SelasClient := { client0 with services := .arr [entry0] }

/-- A small stable-diffusion-style job configuration. -/
def cfg0 : Json :=
  .obj [("steps", .num 28), ("prompt", .str "banana in the kitchen")]

/-! ## The claims -/

/-- C1 (amended): with no catalog entry whose `name` is the requested
service name (the empty catalog included), `postJob` fails locally by
throwing `Error("Invalid model name")` — the async call rejects instead
of resolving to a `(data, error)` pair — and performs zero
remote-procedure calls. -/
theorem postJob_unknown_throws (c : SelasClient) (backend : Backend)
    (sn : String) (cfg : Json) (l : List Json)
    (hs : c.services = .arr l) (hnone : ∀ s ∈ l, nameMatches s sn = false) :
    postJob c backend sn cfg = ⟨.error "Invalid model name", c, []⟩ := by
  have hfs : findService c.services sn = none := by
    rw [hs]
    simp only [findService]
    rw [List.find?_eq_none]
    intro x hx
    simp [hnone x hx]
  simp only [postJob, hfs]

/-- C1 counterexample: on the empty catalog the claimed return value
`\x7bdata: null, error: "Invalid model name"\x7d` is not what `postJob`
produces — it throws instead of returning that pair. -/
theorem postJob_unknown_not_error_pair :
    (postJob client0 backend0 "sdxl" (.obj [])).ret ≠
      Except.ok ⟨none, some (.str "Invalid model name")⟩ := by
  intro h
  have hret : (postJob client0 backend0 "sdxl" (.obj [])).ret =
      Except.error "Invalid model name" := rfl
  rw [hret] at h
  exact Except.noConfusion h

/-- C1 witness: the amended claim at the empty catalog. -/
theorem postJob_unknown_throws_witness :
    client0.services = .arr [] ∧
    (∀ s ∈ ([] : List Json), nameMatches s "sdxl" = false) ∧
    postJob client0 backend0 "sdxl" (.obj []) =
      ⟨.error "Invalid model name", client0, []⟩ :=
  ⟨rfl, by simp,
    postJob_unknown_throws client0 backend0 "sdxl" (.obj []) [] rfl (by simp)⟩

/-- C2: with a catalog entry whose `name` is the requested service name,
`postJob` issues exactly one call, to "app_owner_post_job_admin", whose
`p_service_id` is the matching entry's `id` field, and returns the
backend's result pair verbatim — on success the backend-assigned job
identifier as `data` with `error` absent. -/
theorem postJob_matched_call (c : SelasClient) (backend : Backend)
    (sn : String) (cfg : Json) (l : List Json) (hs : c.services = .arr l)
    (hex : ∃ s ∈ l, nameMatches s sn = true) :
    ∃ entry, findService c.services sn = some entry ∧
      nameMatches entry sn = true ∧
      (postJob c backend sn cfg).calls =
        [⟨"app_owner_post_job_admin",
          paramsWithToken c (postJobParams c entry cfg)⟩] ∧
      (postJob c backend sn cfg).ret =
        .ok (backend "app_owner_post_job_admin"
          (paramsWithToken c (postJobParams c entry cfg))) ∧
      (∀ idv, jsGet entry "id" = some idv →
        jsGetKv (paramsWithToken c (postJobParams c entry cfg)) "p_service_id" =
          some idv) ∧
      (∀ d, backend "app_owner_post_job_admin"
          (paramsWithToken c (postJobParams c entry cfg)) = ⟨some d, none⟩ →
        (postJob c backend sn cfg).ret = .ok ⟨some d, none⟩) := by
  obtain ⟨s0, hs0, hm0⟩ := hex
  have hsome : (l.find? (fun s => nameMatches s sn)).isSome := by
    rw [List.find?_isSome]
    exact ⟨s0, hs0, hm0⟩
  obtain ⟨entry, hfind⟩ := Option.isSome_iff_exists.mp hsome
  have hfs : findService c.services sn = some entry := by
    rw [hs]
    exact hfind
  have hmatch : nameMatches entry sn = true := by
    have := List.find?_some hfind
    simpa using this
  refine ⟨entry, hfs, hmatch, ?_, ?_, ?_, ?_⟩
  · simp only [postJob, hfs, rpc]
  · simp only [postJob, hfs, rpc]
  · intro idv hid
    rw [jsGetKv_paramsWithToken]
    simp [postJobParams, jsGetKv, hid]
  · intro d hd
    simp only [postJob, hfs, rpc, hd]

/-- C2 witness: the spec's end-to-end example catalog and backend. -/
theorem postJob_matched_call_witness :
    client1.services = .arr [entry0] ∧
    (∃ s ∈ [entry0], nameMatches s "sdxl" = true) ∧
    ∃ entry, findService client1.services "sdxl" = some entry ∧
      nameMatches entry "sdxl" = true ∧
      (postJob client1 backend1 "sdxl" cfg0).calls =
        [⟨"app_owner_post_job_admin",
          paramsWithToken client1 (postJobParams client1 entry cfg0)⟩] ∧
      (postJob client1 backend1 "sdxl" cfg0).ret =
        .ok (backend1 "app_owner_post_job_admin"
          (paramsWithToken client1 (postJobParams client1 entry cfg0))) ∧
      (∀ idv, jsGet entry "id" = some idv →
        jsGetKv (paramsWithToken client1 (postJobParams client1 entry cfg0))
          "p_service_id" = some idv) ∧
      (∀ d, backend1 "app_owner_post_job_admin"
          (paramsWithToken client1 (postJobParams client1 entry cfg0)) =
            ⟨some d, none⟩ →
        (postJob client1 backend1 "sdxl" cfg0).ret = .ok ⟨some d, none⟩) :=
  ⟨rfl, ⟨entry0, by simp, by rfl⟩,
    postJob_matched_call client1 backend1 "sdxl" cfg0 [entry0] rfl
      ⟨entry0, by simp, by rfl⟩⟩

/-- C3: with a matching service name, the job-creation call's
`p_job_config` parameter is the `JSON.stringify` serialization of the
configuration, and that serialization round-trips: parsing it yields the
configuration back, field for field. -/
theorem postJob_config_roundtrip (c : SelasClient) (backend : Backend)
    (sn : String) (cfg : Json) (entry : Json)
    (hfind : findService c.services sn = some entry) :
    (postJob c backend sn cfg).calls =
      [⟨"app_owner_post_job_admin",
        paramsWithToken c (postJobParams c entry cfg)⟩] ∧
    jsGetKv (paramsWithToken c (postJobParams c entry cfg)) "p_job_config" =
      some (.str (stringify cfg)) ∧
    parseJson (stringify cfg) = some cfg := by
  refine ⟨?_, ?_, parse_stringify cfg⟩
  · simp only [postJob, hfind, rpc]
  · rw [jsGetKv_paramsWithToken]
    simp [postJobParams, jsGetKv]

/-- C3 witness: the round trip at a concrete configuration. -/
theorem postJob_config_roundtrip_witness :
    findService client1.services "sdxl" = some entry0 ∧
    ((postJob client1 backend1 "sdxl" cfg0).calls =
      [⟨"app_owner_post_job_admin",
        paramsWithToken client1 (postJobParams client1 entry0 cfg0)⟩] ∧
    jsGetKv (paramsWithToken client1 (postJobParams client1 entry0 cfg0))
      "p_job_config" = some (.str (stringify cfg0)) ∧
    parseJson (stringify cfg0) = some cfg0) :=
  ⟨rfl, postJob_config_roundtrip client1 backend1 "sdxl" cfg0 entry0 rfl⟩

/-- C4: with a matching service name, a backend error payload is handed
back verbatim in the `error` field of `postJob`'s returned pair, with
`data` absent. -/
theorem postJob_error_forwarded (c : SelasClient) (backend : Backend)
    (sn : String) (cfg : Json) (entry err : Json)
    (hfind : findService c.services sn = some entry)
    (herr : backend "app_owner_post_job_admin"
        (paramsWithToken c (postJobParams c entry cfg)) = ⟨none, some err⟩) :
    (postJob c backend sn cfg).ret = .ok ⟨none, some err⟩ := by
  simp only [postJob, hfind, rpc, herr]

/-- C4 witness: the quota-exceeded example. -/
theorem postJob_error_forwarded_witness :
    findService client1.services "sdxl" = some entry0 ∧
    backendErr "app_owner_post_job_admin"
      (paramsWithToken client1 (postJobParams client1 entry0 cfg0)) =
        ⟨none, some err0⟩ ∧
    (postJob client1 backendErr "sdxl" cfg0).ret = .ok ⟨none, some err0⟩ :=
  ⟨rfl, rfl,
    postJob_error_forwarded client1 backendErr "sdxl" cfg0 entry0 err0 rfl rfl⟩

/-- Helper: `postJob` never mutates the client state. -/
theorem postJob_client (c : SelasClient) (backend : Backend) (sn : String)
    (cfg : Json) : (postJob c backend sn cfg).client = c := by
  cases hfs : findService c.services sn with
  | none => simp [postJob, hfs]
  | some entry => simp [postJob, hfs, rpc]

/-- C5: every operation's single remote call carries exactly its
operation-specific parameters merged with the four credential fields of
the client's credential context — present keys are the callers' plus
exactly those four, which always read the stored credentials. -/
theorem rpc_params_merged (c : SelasClient) (backend : Backend) (msg : String)
    (lim off : Int) (sn : String) (cfg : Json) :
    (echo c backend msg).calls =
      [⟨"app_user_echo", paramsWithToken c [("message_app_user", .str msg)]⟩] ∧
    (getServiceList c backend).calls =
      [⟨"app_user_get_services", paramsWithToken c []⟩] ∧
    (getAppUserCredits c backend).calls =
      [⟨"app_user_get_credits", paramsWithToken c []⟩] ∧
    (getAppUserJobHistory c backend lim off).calls =
      [⟨"app_user_get_job_history_detail",
        paramsWithToken c [("p_limit", .num lim), ("p_offset", .num off)]⟩] ∧
    (∀ entry, findService c.services sn = some entry →
      (postJob c backend sn cfg).calls =
        [⟨"app_owner_post_job_admin",
          paramsWithToken c (postJobParams c entry cfg)⟩]) ∧
    (∀ params k, jsGetKv (paramsWithToken c params) k =
      if k = "p_app_id" then some (.str c.app_id)
      else if k = "p_key" then some (.str c.key)
      else if k = "p_app_user_id" then some (.str c.app_user_id)
      else if k = "p_app_user_token" then some (.str c.app_user_token)
      else jsGetKv params k) ∧
    (∀ params k, (jsGetKv (paramsWithToken c params) k).isSome =
      ((jsGetKv params k).isSome || decide (k ∈ credKeys))) := by
  refine ⟨rfl, rfl, rfl, rfl, ?_, ?_, ?_⟩
  · intro entry hfs
    simp only [postJob, hfs, rpc]
  · intro params k
    exact jsGetKv_paramsWithToken c params k
  · intro params k
    exact paramsWithToken_keys c params k

/-- C5 witness: concrete calls of every operation, the job-creation
premise discharged at the example catalog. -/
theorem rpc_params_merged_witness :
    (echo client1 backend1 "hello").calls =
      [⟨"app_user_echo",
        paramsWithToken client1 [("message_app_user", .str "hello")]⟩] ∧
    (getAppUserJobHistory client1 backend1 10 0).calls =
      [⟨"app_user_get_job_history_detail",
        paramsWithToken client1 [("p_limit", .num 10), ("p_offset", .num 0)]⟩] ∧
    (postJob client1 backend1 "sdxl" cfg0).calls =
      [⟨"app_owner_post_job_admin",
        paramsWithToken client1 (postJobParams client1 entry0 cfg0)⟩] ∧
    jsGetKv (paramsWithToken client1 [("x", .num 1)]) "p_app_id" =
      some (.str "app") := by
  have h := rpc_params_merged client1 backend1 "hello" 10 0 "sdxl" cfg0
  refine ⟨h.1, h.2.2.2.1, h.2.2.2.2.1 entry0 rfl, ?_⟩
  rw [h.2.2.2.2.2.1 [("x", .num 1)] "p_app_id"]
  rfl

/-- C6: a catalog fetch whose backend data is a list replaces the
client's service list with exactly that list — same entries, same order,
no dedup, no merge — and no other client operation touches the client
state at all. -/
theorem catalog_replaced_exactly (c : SelasClient) (backend : Backend)
    (l : List Json) :
    ((backend "app_user_get_services" (paramsWithToken c [])).data =
        some (.arr l) →
      (getServiceList c backend).client.services = .arr l) ∧
    (∀ msg, (echo c backend msg).client = c) ∧
    ((getAppUserCredits c backend).client = c) ∧
    (∀ lim off, (getAppUserJobHistory c backend lim off).client = c) ∧
    (∀ sn cfg, (postJob c backend sn cfg).client = c) ∧
    (∀ cfg mn, (runStableDiffusion c backend cfg mn).client = c) ∧
    (∀ (α : Type) (J : String) (cb : Json → α), (subscribeToJob c J cb).1 = c) := by
  refine ⟨?_, fun _ => rfl, rfl, fun _ _ => rfl, postJob_client c backend, ?_, fun _ _ _ => rfl⟩
  · intro h
    simp [getServiceList, rpc, h, optTruthy, Json.truthy]
  · intro cfg mn
    simp only [runStableDiffusion]
    rcases hres : (postJob c backend mn cfg).ret with e | resp
    · simp [hres, postJob_client]
    · by_cases ht : optTruthy resp.error = true
      · simp [hres, ht, postJob_client]
      · simp [hres, ht, postJob_client]

/-- A backend whose service listing returns a duplicated entry. -/
def backendDup : Backend := fun fn _ =>
  if fn = "app_user_get_services" then ⟨some (.arr [entry0, entry0]), none⟩
  else ⟨none, none⟩

/-- C6 witness: a fetch returning a two-entry list (with a duplicate)
stores exactly that list, and the read-only operations leave the client
unchanged. -/
theorem catalog_replaced_exactly_witness :
    (backendDup "app_user_get_services" (paramsWithToken client0 [])).data =
      some (.arr [entry0, entry0]) ∧
    (getServiceList client0 backendDup).client.services =
      .arr [entry0, entry0] ∧
    (echo client0 backendDup "hi").client = client0 ∧
    (runStableDiffusion client0 backendDup cfg0 "sdxl").client = client0 :=
  ⟨rfl, (catalog_replaced_exactly client0 backendDup [entry0, entry0]).1 rfl,
    (catalog_replaced_exactly client0 backendDup [entry0, entry0]).2.1 "hi",
    (catalog_replaced_exactly client0 backendDup [entry0, entry0]).2.2.2.2.2.1
      cfg0 "sdxl"⟩

/-- C7: subscribing to a job yields exactly one subscription, on channel
`job-` followed by the job identifier, bound to the single event name
"result"; the relay invokes the callback exactly for a "result" event on
that channel and never otherwise. -/
theorem subscribe_channel_event (α : Type) (c : SelasClient) (J : String)
    (cb : Json → α) :
    ∃ s : Subscription α, (subscribeToJob c J cb).2 = [s] ∧
      s.channel = "job-" ++ J ∧ s.event = "result" ∧
      ∀ ch ev payload, deliver s ch ev payload =
        if ch = "job-" ++ J ∧ ev = "result" then some (cb payload) else none := by
  refine ⟨⟨⟨"n", "eu"⟩, "job-" ++ J, "result", cb⟩, rfl, rfl, rfl, ?_⟩
  intro ch ev payload
  simp only [deliver]
  have hiff : ("job-" ++ J = ch ∧ "result" = ev) ↔
      (ch = "job-" ++ J ∧ ev = "result") := by
    constructor
    · rintro ⟨a, b⟩
      exact ⟨a.symm, b.symm⟩
    · rintro ⟨a, b⟩
      exact ⟨a.symm, b.symm⟩
  rw [if_congr hiff rfl rfl]

/-- C8: a client constructed without a worker filter gets the default
filter with branch "prod" (a supplied filter is stored as given), and
every job submission's `p_worker_filter` parameter is exactly the
client's stored filter. -/
theorem worker_filter_default (a k u t : String) (f : WorkerFilter)
    (c : SelasClient) (backend : Backend) (sn : String) (cfg : Json) :
    (mkSelasClient a k u t none).worker_filter =
      { id := none, name := none, branch := some "prod", is_dirty := none,
        cluster := none } ∧
    (mkSelasClient a k u t (some f)).worker_filter = f ∧
    (∀ entry, findService c.services sn = some entry →
      jsGetKv (paramsWithToken c (postJobParams c entry cfg)) "p_worker_filter" =
        some (workerFilterJson c.worker_filter) ∧
      (postJob c backend sn cfg).calls =
        [⟨"app_owner_post_job_admin",
          paramsWithToken c (postJobParams c entry cfg)⟩]) := by
  refine ⟨rfl, rfl, ?_⟩
  intro entry hfs
  constructor
  · rw [jsGetKv_paramsWithToken]
    simp [postJobParams, jsGetKv]
  · simp only [postJob, hfs, rpc]

/-- C8 witness: the default filter of a fresh client, a supplied filter
kept, and the filter attached at the example submission. -/
theorem worker_filter_default_witness :
    client0.worker_filter =
      { id := none, name := none, branch := some "prod", is_dirty := none,
        cluster := none } ∧
    (mkSelasClient "a" "k" "u" "t"
        (some { branch := some "main" })).worker_filter =
      { branch := some "main" } ∧
    jsGetKv (paramsWithToken client1 (postJobParams client1 entry0 cfg0))
      "p_worker_filter" = some (workerFilterJson client1.worker_filter) := by
  have h := worker_filter_default "app" "key" "user" "token"
    { branch := some "main" } client1 backend1 "sdxl" cfg0
  exact ⟨h.1, (worker_filter_default "a" "k" "u" "t" { branch := some "main" }
    client1 backend1 "sdxl" cfg0).2.1, (h.2.2 entry0 rfl).1⟩

/-- C9: a catalog fetch whose remote call returns no data keeps the
previously stored catalog — the whole client state is unchanged. -/
theorem catalog_kept_on_no_data (c : SelasClient) (backend : Backend)
    (h : (backend "app_user_get_services" (paramsWithToken c [])).data = none) :
    (getServiceList c backend).client = c := by
  simp [getServiceList, rpc, h, optTruthy]

/-- C9 witness: the no-data backend leaves the populated catalog alone. -/
theorem catalog_kept_on_no_data_witness :
    (backend0 "app_user_get_services" (paramsWithToken client1 [])).data =
      none ∧
    (getServiceList client1 backend0).client = client1 :=
  ⟨rfl, catalog_kept_on_no_data client1 backend0 rfl⟩

/-- C10: the transmitted parameters always carry the client's own
credentials under the four credential keys, and assigning any value to
one of those keys in the caller's parameter map has no effect on any
transmitted parameter. -/
theorem creds_not_overridable (c : SelasClient)
    (params : List (String × Json)) (k : String) (v : Json)
    (hk : k = "p_app_id" ∨ k = "p_key" ∨ k = "p_app_user_id" ∨
      k = "p_app_user_token") :
    jsGetKv (paramsWithToken c params) "p_app_id" = some (.str c.app_id) ∧
    jsGetKv (paramsWithToken c params) "p_key" = some (.str c.key) ∧
    jsGetKv (paramsWithToken c params) "p_app_user_id" =
      some (.str c.app_user_id) ∧
    jsGetKv (paramsWithToken c params) "p_app_user_token" =
      some (.str c.app_user_token) ∧
    ∀ k', jsGetKv (paramsWithToken c (objSet params k v)) k' =
      jsGetKv (paramsWithToken c params) k' := by
  refine ⟨?_, ?_, ?_, ?_, ?_⟩
  · rw [jsGetKv_paramsWithToken]
    rfl
  · rw [jsGetKv_paramsWithToken]
    rfl
  · rw [jsGetKv_paramsWithToken]
    rfl
  · rw [jsGetKv_paramsWithToken]
    rfl
  · intro k'
    rw [jsGetKv_paramsWithToken, jsGetKv_paramsWithToken, jsGetKv_objSet]
    by_cases e1 : k' = "p_app_id"
    · simp [e1]
    · by_cases e2 : k' = "p_key"
      · simp [e2]
      · by_cases e3 : k' = "p_app_user_id"
        · simp [e3]
        · by_cases e4 : k' = "p_app_user_token"
          · simp [e4]
          · have hkk : ¬(k = k') := by
              rcases hk with h | h | h | h <;> subst h <;> intro e <;>
                first
                  | exact e1 e.symm
                  | exact e2 e.symm
                  | exact e3 e.symm
                  | exact e4 e.symm
            simp [e1, e2, e3, e4, hkk]

/-- C10 witness: a caller-supplied `p_app_id` is overwritten and changes
nothing in the transmitted parameters. -/
theorem creds_not_overridable_witness :
    ("p_app_id" = "p_app_id" ∨ "p_app_id" = "p_key" ∨
      "p_app_id" = "p_app_user_id" ∨ "p_app_id" = "p_app_user_token") ∧
    jsGetKv (paramsWithToken client1 [("x", .num 1)]) "p_app_id" =
      some (.str "app") ∧
    ∀ k', jsGetKv (paramsWithToken client1
        (objSet [("x", .num 1)] "p_app_id" (.str "evil"))) k' =
      jsGetKv (paramsWithToken client1 [("x", .num 1)]) k' := by
  have h := creds_not_overridable client1 [("x", .num 1)] "p_app_id"
    (.str "evil") (Or.inl rfl)
  exact ⟨Or.inl rfl, h.1, h.2.2.2.2⟩
